import Mathlib

set_option maxRecDepth 8000

/-!
Shallow embedding of the parsing and guess-matching core of the population-quiz
backend (`wiki_parser.py`, plus the population-attachment step of the `/check`
handler in `app.py`).

Python strings are modelled as lists of Unicode code points (`List Nat`).
`str.strip` / `str.lower` are modelled on the ASCII range (all constants the
program compares against are ASCII).  Regex searches are modelled by explicit
leftmost-match scanning functions that reproduce the backtracking behaviour of
the three concrete patterns used by the source.  Fallible operations (an
uncaught `ValueError` from `list.index`, an `IndexError`/`TypeError` in the
`/check` handler) are modelled with `Option`, `none` standing for a raised
exception.
-/

/-- Code points of a string literal; used to write concrete Python strings. -/
def pyStr (s : String) : List Nat := s.data.map Char.toNat

/-- Whitespace test used by Python `str.strip()` (ASCII whitespace). -/
def isPySpace (c : Nat) : Bool := decide (c = 32 ∨ c = 9 ∨ c = 10 ∨ c = 13 ∨ c = 11 ∨ c = 12)

/-- Python `str.lower()` on a single code point (ASCII letters). -/
def pyLowerChar (c : Nat) : Nat := if 65 ≤ c ∧ c ≤ 90 then c + 32 else c

/-- Python `str.lower()`. -/
def pyLower (l : List Nat) : List Nat := l.map pyLowerChar

/-- Removal of leading whitespace (first half of Python `str.strip()`). -/
def stripLeft (l : List Nat) : List Nat := l.dropWhile isPySpace

/-- Removal of trailing whitespace (second half of Python `str.strip()`). -/
def stripRight : List Nat → List Nat
  | [] => []
  | c :: t =>
    match stripRight t with
    | [] => if isPySpace c then [] else [c]
    | d :: r => c :: d :: r

/-- Python `str.strip()`. -/
def pyStrip (l : List Nat) : List Nat := stripRight (stripLeft l)

/-- Whether `p` is an initial segment of the second list. -/
def startsWith : List Nat → List Nat → Bool
  | [], _ => true
  | _ :: _, [] => false
  | p :: ps, c :: cs => p == c && startsWith ps cs

/-- Whether `pat` occurs as a contiguous segment of the second list
(`re.search` with a literal pattern). -/
def hasSub (pat : List Nat) : List Nat → Bool
  | [] => startsWith pat []
  | c :: rest => startsWith pat (c :: rest) || hasSub pat rest

/-- Worker for `rowSplit`: Python `str.split("|-")`, scanning left to right for
non-overlapping occurrences of the separator `"|-"` (code points 124, 45). -/
def rowSplitGo (acc : List Nat) : List Nat → List (List Nat)
  | [] => [acc.reverse]
  | [c] => [(c :: acc).reverse]
  | c :: d :: rest =>
    if c = 124 ∧ d = 45 then acc.reverse :: rowSplitGo [] rest
    else rowSplitGo (c :: acc) (d :: rest)

/-- `wikitext.split("|-")` from both parse functions. -/
def rowSplit (w : List Nat) : List (List Nat) := rowSplitGo [] w

/-- The literal `"{{flagicon|"` searched for by `flagicon_pattern`. -/
def flagiconPat : List Nat := pyStr "\x7b\x7bflagicon|"

/-- `flagicon_pattern.search(row)`: the pattern is a literal with
`re.IGNORECASE`, i.e. a case-insensitive substring test. -/
def flagiconIn (row : List Nat) : Bool := hasSub flagiconPat (pyLower row)

/-- Backtracking choice of the pipe for `link_pattern`
`\[\[[^\]]+\|([^\]]+)\]\]` applied to the bracket-free run `run`: the
rightmost pipe with a nonempty `]`-free part before it and a nonempty
remainder after it; the capture is that remainder. -/
def pickPipe (run : List Nat) : Option (List Nat) :=
  match ((List.range run.length).filter
      (fun p => run.getD p 0 == 124 && p != 0 && decide (p + 2 ≤ run.length))).getLast? with
  | some p => some (run.drop (p + 1))
  | none => none

/-- Attempt to match `link_pattern` anchored at the head of `l`. -/
def linkAt (l : List Nat) : Option (List Nat) :=
  if startsWith (pyStr "[[") l then
    let rest := l.drop 2
    let run := rest.takeWhile (fun c => c != 93)
    if startsWith (pyStr "]]") (rest.drop run.length) then pickPipe run else none
  else none

/-- `link_pattern.findall(row)` followed by `matches[0]`: the capture of the
leftmost match of `\[\[[^\]]+\|([^\]]+)\]\]`. -/
def firstLink : List Nat → Option (List Nat)
  | [] => none
  | c :: rest =>
    match linkAt (c :: rest) with
    | some cap => some cap
    | none => firstLink rest

/-- ASCII digit test (`\d` on the document's ASCII figures). -/
def isDigit (c : Nat) : Bool := decide (48 ≤ c ∧ c ≤ 57)

/-- Attempt to match `population_pattern` `\{\{n\+p\|(\d+)\|` anchored at the
head of `l`; the capture is the maximal digit run after `"{{n+p|"`, which must
be nonempty and followed by `"|"`. -/
def popAt (l : List Nat) : Option (List Nat) :=
  if startsWith (pyStr "\x7b\x7bn+p|") l then
    let rest := l.drop 6
    let digits := rest.takeWhile isDigit
    if digits != [] && startsWith (pyStr "|") (rest.drop digits.length) then some digits
    else none
  else none

/-- `population_pattern.search(row)`: capture of the leftmost match. -/
def firstPop : List Nat → Option (List Nat)
  | [] => none
  | c :: rest =>
    match popAt (c :: rest) with
    | some ds => some ds
    | none => firstPop rest

/-- Decimal digits of `n` (code points, most significant first); the first
argument is fuel making the recursion structural, initialised to `n` itself. -/
def decDigitsAux : Nat → Nat → List Nat → List Nat
  | _, 0, acc => acc
  | 0, _, acc => acc
  | fuel + 1, n, acc => decDigitsAux fuel (n / 10) ((n % 10 + 48) :: acc)

/-- Decimal representation of `n` as code points. -/
def decDigits (n : Nat) : List Nat := if n = 0 then [48] else decDigitsAux n n []

/-- Insert a comma (code point 44) after every third digit of a reversed
digit list. -/
def groupRev : List Nat → List Nat
  | d1 :: d2 :: d3 :: d4 :: rest => d1 :: d2 :: d3 :: 44 :: groupRev (d4 :: rest)
  | l => l

/-- Python `f"{n:,}"`: decimal digits with thousands separators. -/
def commaFormat (n : Nat) : List Nat := (groupRev (decDigits n).reverse).reverse

/-- Python `int()` on a digit-only string. -/
def natOfDigits (ds : List Nat) : Nat := ds.foldl (fun a d => a * 10 + (d - 48)) 0

/-- The `TOP_N` constant. -/
def TOP_N : Nat := 20

/-- The `for row in rows` loop of `parse_top_countries`: break once `top_n`
names are collected, skip rows without a flagicon, skip rows without a link
match, else append the stripped lowercased capture. -/
def countriesLoop (top_n : Nat) : List (List Nat) → List (List Nat) → List (List Nat)
  | [], countries => countries
  | row :: rest, countries =>
    if top_n ≤ countries.length then countries
    else if flagiconIn row then
      match firstLink row with
      | some m => countriesLoop top_n rest (countries ++ [pyLower (pyStrip m)])
      | none => countriesLoop top_n rest countries
    else countriesLoop top_n rest countries

/-- `parse_top_countries(wikitext, top_n)`. -/
def parse_top_countries (wikitext : List Nat) (top_n : Nat) : List (List Nat) :=
  countriesLoop top_n (rowSplit wikitext) []

/-- The `for row in rows` loop of `parse_top_populations`. -/
def populationsLoop (top_n : Nat) : List (List Nat) → List (List Nat) → List (List Nat)
  | [], pops => pops
  | row :: rest, pops =>
    if top_n ≤ pops.length then pops
    else if flagiconIn row then
      match firstPop row with
      | some ds => populationsLoop top_n rest (pops ++ [commaFormat (natOfDigits ds)])
      | none => populationsLoop top_n rest pops
    else populationsLoop top_n rest pops

/-- `parse_top_populations(wikitext, top_n)`. -/
def parse_top_populations (wikitext : List Nat) (top_n : Nat) : List (List Nat) :=
  populationsLoop top_n (rowSplit wikitext) []

/-- The contribution of a single row to `parse_top_countries`: `some name` if
the row has a flagicon and a link match, else `none`. -/
def rowName (row : List Nat) : Option (List Nat) :=
  if flagiconIn row then (firstLink row).map (fun m => pyLower (pyStrip m)) else none

/-- The contribution of a single row to `parse_top_populations`. -/
def rowPop (row : List Nat) : Option (List Nat) :=
  if flagiconIn row then (firstPop row).map (fun ds => commaFormat (natOfDigits ds)) else none

/-- The names `parse_top_countries` would extract with no cap. -/
def allCountries (w : List Nat) : List (List Nat) := (rowSplit w).filterMap rowName

/-- The `ALIASES` dictionary (insertion order of the source; keys distinct). -/
def ALIASES : List (List Nat × List Nat) :=
  [ (pyStr "usa", pyStr "united states"),
    (pyStr "us", pyStr "united states"),
    (pyStr "america", pyStr "united states"),
    (pyStr "united states of america", pyStr "united states"),
    (pyStr "dr congo", pyStr "democratic republic of the congo"),
    (pyStr "drc", pyStr "democratic republic of the congo"),
    (pyStr "congo", pyStr "democratic republic of the congo"),
    (pyStr "republic of the congo", pyStr "democratic republic of the congo"),
    (pyStr "uk", pyStr "united kingdom"),
    (pyStr "britain", pyStr "united kingdom"),
    (pyStr "great britain", pyStr "united kingdom"),
    (pyStr "england", pyStr "united kingdom"),
    (pyStr "persia", pyStr "iran"),
    (pyStr "burma", pyStr "myanmar"),
    (pyStr "dprk", pyStr "north korea"),
    (pyStr "prc", pyStr "china") ]

/-- Python dict lookup on the alias table (`cleaned in ALIASES` guards
`ALIASES[cleaned]`, and both are determined by this one lookup). -/
def dictGet (k : List Nat) : List (List Nat × List Nat) → Option (List Nat)
  | [] => none
  | kv :: rest => if k == kv.1 then some kv.2 else dictGet k rest

/-- `normalise_guess(guess)`: strip, lower, then one alias substitution. -/
def normalise_guess (guess : List Nat) : List Nat :=
  let cleaned := pyLower (pyStrip guess)
  match dictGet cleaned ALIASES with
  | some v => v
  | none => cleaned

/-- Python `normalised in top_countries`. -/
def listMem (x : List Nat) : List (List Nat) → Bool
  | [] => false
  | y :: ys => x == y || listMem x ys

/-- Python `top_countries.index(normalised)`; `none` models `ValueError`. -/
def listIndex (x : List Nat) : List (List Nat) → Option Nat
  | [] => none
  | y :: ys => if x == y then some 0 else (listIndex x ys).map (fun i => i + 1)

/-- The dictionary returned by `check_guess`. -/
structure GuessResult where
  correct : Bool
  rank : Option Nat
  normalised : List Nat
deriving DecidableEq

/-- `check_guess(guess, top_countries)`; `none` models an uncaught exception
(the only fallible step is `list.index`, guarded by the membership test). -/
def check_guess (guess : List Nat) (top_countries : List (List Nat)) : Option GuessResult :=
  let normalised := normalise_guess guess
  if listMem normalised top_countries then
    match listIndex normalised top_countries with
    | some i => some ⟨true, some (i + 1), normalised⟩
    | none => none
  else
    some ⟨false, none, normalised⟩

/-- The JSON body produced by the `/check` handler; `population = none` models
the absent key. -/
structure CheckResponse where
  correct : Bool
  rank : Option Nat
  normalised : List Nat
  population : Option (List Nat)
deriving DecidableEq

/-- Lines 138-146 of `app.py`: run `check_guess` and, when correct, attach
`top_populations[rank - 1]`; `none` models an uncaught exception
(`IndexError` on a short population list, `TypeError` on a `None` rank). -/
def appCheck (guess : List Nat) (top_countries top_populations : List (List Nat)) :
    Option CheckResponse :=
  match check_guess guess top_countries with
  | none => none
  | some result =>
    if result.correct then
      match result.rank with
      | none => none
      | some rank =>
        match top_populations[rank - 1]? with
        | none => none
        | some pop => some ⟨result.correct, result.rank, result.normalised, some pop⟩
    else
      some ⟨result.correct, result.rank, result.normalised, none⟩

/-! ### Normalisation lemmas -/

theorem isPySpace_pyLowerChar (c : Nat) : isPySpace (pyLowerChar c) = isPySpace c := by
  unfold pyLowerChar
  split_ifs with h
  · simp only [isPySpace]
    rw [decide_eq_decide]
    omega
  · rfl

theorem pyLowerChar_pyLowerChar (c : Nat) : pyLowerChar (pyLowerChar c) = pyLowerChar c := by
  unfold pyLowerChar
  split_ifs <;> omega

theorem pyLower_pyLower (l : List Nat) : pyLower (pyLower l) = pyLower l := by
  induction l with
  | nil => rfl
  | cons c t ih =>
    simp only [pyLower, List.map_cons] at ih ⊢
    rw [pyLowerChar_pyLowerChar, ih]

theorem stripLeft_stripLeft (l : List Nat) : stripLeft (stripLeft l) = stripLeft l := by
  unfold stripLeft
  induction l with
  | nil => rfl
  | cons c t ih =>
    cases hc : isPySpace c
    · simp [List.dropWhile_cons, hc]
    · simp only [List.dropWhile_cons, hc]
      simpa using ih

/-- Definitional unfolding of `stripRight` on a cons cell. -/
theorem stripRight_cons (c : Nat) (t : List Nat) :
    stripRight (c :: t) =
      match stripRight t with
      | [] => if isPySpace c then [] else [c]
      | d :: r => c :: d :: r := rfl

theorem stripRight_stripRight (l : List Nat) : stripRight (stripRight l) = stripRight l := by
  induction l with
  | nil => rfl
  | cons c t ih =>
    cases h : stripRight t with
    | nil =>
      cases hc : isPySpace c
      · have e1 : stripRight (c :: t) = [c] := by rw [stripRight_cons, h]; simp [hc]
        rw [e1, stripRight_cons]
        simp [stripRight, hc]
      · have e1 : stripRight (c :: t) = [] := by rw [stripRight_cons, h]; simp [hc]
        rw [e1]
        rfl
    | cons d r =>
      rw [h] at ih
      have e1 : stripRight (c :: t) = c :: d :: r := by rw [stripRight_cons, h]
      rw [e1, stripRight_cons, ih]

theorem stripRight_cons_shape (c : Nat) (t : List Nat) :
    stripRight (c :: t) = [] ∨ ∃ r, stripRight (c :: t) = c :: r := by
  cases h : stripRight t with
  | nil =>
    cases hc : isPySpace c
    · right; exact ⟨[], by rw [stripRight_cons, h]; simp [hc]⟩
    · left; rw [stripRight_cons, h]; simp [hc]
  | cons d r => right; exact ⟨d :: r, by rw [stripRight_cons, h]⟩

theorem head_not_space_of_stripLeft (c : Nat) (t : List Nat) (h : stripLeft (c :: t) = c :: t) :
    isPySpace c = false := by
  cases hc : isPySpace c
  · rfl
  · exfalso
    rw [stripLeft, List.dropWhile_eq_self_iff] at h
    have := h (by simp)
    simp [hc] at this

theorem stripLeft_stripRight (m : List Nat) (h : stripLeft m = m) :
    stripLeft (stripRight m) = stripRight m := by
  cases m with
  | nil => rfl
  | cons c t =>
    have hc : isPySpace c = false := head_not_space_of_stripLeft c t h
    rcases stripRight_cons_shape c t with h0 | ⟨r, hr⟩
    · rw [h0]; rfl
    · rw [hr]
      simp [stripLeft, List.dropWhile_cons, hc]

theorem pyStrip_pyStrip (l : List Nat) : pyStrip (pyStrip l) = pyStrip l := by
  unfold pyStrip
  rw [stripLeft_stripRight (stripLeft l) (stripLeft_stripLeft l), stripRight_stripRight]

theorem stripLeft_pyLower (l : List Nat) : stripLeft (pyLower l) = pyLower (stripLeft l) := by
  induction l with
  | nil => rfl
  | cons c t ih =>
    simp only [pyLower, List.map_cons, stripLeft, List.dropWhile_cons, isPySpace_pyLowerChar]
    cases hc : isPySpace c
    · simp [hc, pyLower]
    · simp only [hc, if_true]
      simpa [pyLower, stripLeft] using ih

theorem stripRight_pyLower (l : List Nat) : stripRight (pyLower l) = pyLower (stripRight l) := by
  induction l with
  | nil => rfl
  | cons c t ih =>
    have hmap : pyLower (c :: t) = pyLowerChar c :: pyLower t := rfl
    rw [hmap, stripRight_cons, stripRight_cons, ih]
    cases h : stripRight t with
    | nil =>
      simp only [pyLower, List.map_nil]
      rw [isPySpace_pyLowerChar]
      cases hc : isPySpace c <;> simp [hc, pyLower]
    | cons d r => simp [pyLower]

theorem pyStrip_pyLower (l : List Nat) : pyStrip (pyLower l) = pyLower (pyStrip l) := by
  unfold pyStrip
  rw [stripLeft_pyLower, stripRight_pyLower]

theorem cleaned_cleaned (g : List Nat) :
    pyLower (pyStrip (pyLower (pyStrip g))) = pyLower (pyStrip g) := by
  rw [pyStrip_pyLower, pyStrip_pyStrip, pyLower_pyLower]

theorem dictGet_val_mem (k v : List Nat) :
    ∀ t, dictGet k t = some v → ∃ k2, (k2, v) ∈ t := by
  intro t
  induction t with
  | nil => intro h; cases h
  | cons kv rest ih =>
    intro h
    rw [dictGet] at h
    split_ifs at h with he
    · injection h with h2
      exact ⟨kv.1, by rw [← h2]; simp⟩
    · obtain ⟨k2, hm⟩ := ih h
      exact ⟨k2, List.mem_cons_of_mem _ hm⟩

theorem alias_vals_fixed : ∀ kv ∈ ALIASES, normalise_guess kv.2 = kv.2 := by decide

theorem normalise_guess_cleaned (g : List Nat) :
    normalise_guess (pyLower (pyStrip g)) = normalise_guess g := by
  simp only [normalise_guess, cleaned_cleaned]

theorem normalise_guess_idem (g : List Nat) :
    normalise_guess (normalise_guess g) = normalise_guess g := by
  cases hd : dictGet (pyLower (pyStrip g)) ALIASES with
  | some v =>
    have hg : normalise_guess g = v := by simp [normalise_guess, hd]
    obtain ⟨k2, hm⟩ := dictGet_val_mem _ v ALIASES hd
    rw [hg]
    exact alias_vals_fixed (k2, v) hm
  | none =>
    have hg : normalise_guess g = pyLower (pyStrip g) := by simp [normalise_guess, hd]
    rw [hg, normalise_guess_cleaned, hg]

theorem check_guess_ext (g : List Nat) (tc : List (List Nat)) :
    check_guess g tc = check_guess (pyLower (pyStrip g)) tc := by
  unfold check_guess
  rw [normalise_guess_cleaned]

/-! ### Membership and index lemmas -/

theorem listIndex_of_listMem (x : List Nat) :
    ∀ l, listMem x l = true → ∃ i, listIndex x l = some i := by
  intro l
  induction l with
  | nil => intro h; simp [listMem] at h
  | cons y ys ih =>
    intro h
    rw [listMem] at h
    by_cases he : (x == y) = true
    · exact ⟨0, by simp [listIndex, he]⟩
    · simp only [he, Bool.false_or] at h
      obtain ⟨i, hi⟩ := ih h
      exact ⟨i + 1, by simp [listIndex, he, hi]⟩

theorem listMem_of_listIndex (x : List Nat) :
    ∀ l i, listIndex x l = some i → listMem x l = true := by
  intro l
  induction l with
  | nil => intro i h; cases h
  | cons y ys ih =>
    intro i h
    rw [listIndex] at h
    by_cases he : (x == y) = true
    · simp [listMem, he]
    · rw [if_neg he] at h
      cases hi : listIndex x ys with
      | none => rw [hi] at h; cases h
      | some i2 => simp [listMem, he, ih i2 hi]

theorem listIndex_spec (x : List Nat) :
    ∀ l i, listIndex x l = some i →
      i < l.length ∧ l[i]? = some x ∧ ∀ j, j < i → l[j]? ≠ some x := by
  intro l
  induction l with
  | nil => intro i h; cases h
  | cons y ys ih =>
    intro i h
    rw [listIndex] at h
    by_cases he : (x == y) = true
    · rw [if_pos he] at h
      injection h with h2
      subst h2
      have hxy : x = y := by simpa using he
      refine ⟨by simp, by simp [hxy], ?_⟩
      intro j hj
      omega
    · rw [if_neg he] at h
      cases hi : listIndex x ys with
      | none => rw [hi] at h; cases h
      | some i2 =>
        rw [hi] at h
        simp only [Option.map_some', Option.some_inj] at h
        obtain ⟨h1, h2, h3⟩ := ih i2 hi
        subst h
        refine ⟨by simpa using h1, by simpa using h2, ?_⟩
        intro j hj
        cases j with
        | zero =>
          simp only [List.getElem?_cons_zero, ne_eq, Option.some_inj]
          intro heq
          exact he (by simp [heq])
        | succ j2 =>
          simpa using h3 j2 (by omega)

theorem check_guess_found (g : List Nat) (tc : List (List Nat)) (i : Nat)
    (h : listIndex (normalise_guess g) tc = some i) :
    check_guess g tc = some ⟨true, some (i + 1), normalise_guess g⟩ := by
  have hm := listMem_of_listIndex (normalise_guess g) tc i h
  simp [check_guess, hm, h]

theorem check_guess_not_found (g : List Nat) (tc : List (List Nat))
    (h : listMem (normalise_guess g) tc = false) :
    check_guess g tc = some ⟨false, none, normalise_guess g⟩ := by
  simp [check_guess, h]

/-! ### Loop characterisations -/

theorem countriesLoop_eq (top_n : Nat) :
    ∀ (rows acc : List (List Nat)),
      countriesLoop top_n rows acc = acc ++ (rows.filterMap rowName).take (top_n - acc.length) := by
  intro rows
  induction rows with
  | nil => intro acc; simp [countriesLoop]
  | cons row rest ih =>
    intro acc
    by_cases htn : top_n ≤ acc.length
    · have h0 : top_n - acc.length = 0 := Nat.sub_eq_zero_of_le htn
      simp [countriesLoop, htn, h0]
    · cases hf : flagiconIn row with
      | false =>
        have hrn : rowName row = none := by simp [rowName, hf]
        simp only [countriesLoop, if_neg htn, hf, Bool.false_eq_true, if_false]
        rw [ih acc, List.filterMap_cons_none hrn]
      | true =>
        cases hfl : firstLink row with
        | none =>
          have hrn : rowName row = none := by simp [rowName, hf, hfl]
          simp only [countriesLoop, if_neg htn, hf, if_true, hfl]
          rw [ih acc, List.filterMap_cons_none hrn]
        | some m =>
          have hrn : rowName row = some (pyLower (pyStrip m)) := by simp [rowName, hf, hfl]
          simp only [countriesLoop, if_neg htn, hf, if_true, hfl]
          rw [ih (acc ++ [pyLower (pyStrip m)]), List.filterMap_cons_some hrn]
          have harith : top_n - acc.length = (top_n - (acc.length + 1)) + 1 := by omega
          rw [harith, List.take_succ_cons]
          simp

theorem populationsLoop_eq (top_n : Nat) :
    ∀ (rows acc : List (List Nat)),
      populationsLoop top_n rows acc = acc ++ (rows.filterMap rowPop).take (top_n - acc.length) := by
  intro rows
  induction rows with
  | nil => intro acc; simp [populationsLoop]
  | cons row rest ih =>
    intro acc
    by_cases htn : top_n ≤ acc.length
    · have h0 : top_n - acc.length = 0 := Nat.sub_eq_zero_of_le htn
      simp [populationsLoop, htn, h0]
    · cases hf : flagiconIn row with
      | false =>
        have hrn : rowPop row = none := by simp [rowPop, hf]
        simp only [populationsLoop, if_neg htn, hf, Bool.false_eq_true, if_false]
        rw [ih acc, List.filterMap_cons_none hrn]
      | true =>
        cases hfl : firstPop row with
        | none =>
          have hrn : rowPop row = none := by simp [rowPop, hf, hfl]
          simp only [populationsLoop, if_neg htn, hf, if_true, hfl]
          rw [ih acc, List.filterMap_cons_none hrn]
        | some ds =>
          have hrn : rowPop row = some (commaFormat (natOfDigits ds)) := by
            simp [rowPop, hf, hfl]
          simp only [populationsLoop, if_neg htn, hf, if_true, hfl]
          rw [ih (acc ++ [commaFormat (natOfDigits ds)]), List.filterMap_cons_some hrn]
          have harith : top_n - acc.length = (top_n - (acc.length + 1)) + 1 := by omega
          rw [harith, List.take_succ_cons]
          simp

theorem parse_top_countries_eq (w : List Nat) (n : Nat) :
    parse_top_countries w n = (allCountries w).take n := by
  rw [parse_top_countries, countriesLoop_eq, allCountries]
  simp

/-! ### Substring and row-splitting lemmas -/

theorem startsWith_iff (p : List Nat) :
    ∀ l, startsWith p l = true ↔ ∃ b, l = p ++ b := by
  induction p with
  | nil =>
    intro l
    simp only [startsWith, List.nil_append]
    exact ⟨fun _ => ⟨l, rfl⟩, fun _ => trivial⟩
  | cons x xs ih =>
    intro l
    cases l with
    | nil =>
      simp only [startsWith]
      constructor
      · intro h; cases h
      · rintro ⟨b, hb⟩; cases hb
    | cons c cs =>
      rw [startsWith, Bool.and_eq_true]
      constructor
      · rintro ⟨he, hs⟩
        obtain ⟨b, hb⟩ := (ih cs).mp hs
        have hx : x = c := by simpa using he
        exact ⟨b, by simp [hb, hx]⟩
      · rintro ⟨b, hb⟩
        rw [List.cons_append] at hb
        injection hb with h1 h2
        exact ⟨by simp [h1], (ih cs).mpr ⟨b, h2⟩⟩

theorem hasSub_iff (pat : List Nat) :
    ∀ l, hasSub pat l = true ↔ ∃ a b, l = a ++ pat ++ b := by
  intro l
  induction l with
  | nil =>
    rw [hasSub, startsWith_iff]
    constructor
    · rintro ⟨b, hb⟩; exact ⟨[], b, by simp [hb]⟩
    · rintro ⟨a, b, hab⟩
      have h3 := hab.symm
      rw [List.append_assoc, List.append_eq_nil] at h3
      exact ⟨b, by simp [h3.1, h3.2]⟩
  | cons c cs ih =>
    rw [hasSub, Bool.or_eq_true, startsWith_iff, ih]
    constructor
    · rintro (⟨b, hb⟩ | ⟨a, b, hab⟩)
      · exact ⟨[], b, by simp [hb]⟩
      · exact ⟨c :: a, b, by simp [hab]⟩
    · rintro ⟨a, b, hab⟩
      cases a with
      | nil => left; exact ⟨b, by simpa using hab⟩
      | cons a0 as =>
        right
        rw [List.cons_append, List.cons_append] at hab
        injection hab with h1 h2
        exact ⟨as, b, h2⟩

theorem hasSub_of_middle (pat a m b : List Nat) (h : hasSub pat m = true) :
    hasSub pat (a ++ m ++ b) = true := by
  rw [hasSub_iff] at h ⊢
  obtain ⟨x, y, hxy⟩ := h
  exact ⟨a ++ x, y ++ b, by simp [hxy]⟩

theorem rowSplitGo_frag :
    ∀ (n : Nat) (l acc r : List Nat), l.length ≤ n → r ∈ rowSplitGo acc l →
      ∃ a b, a ++ r ++ b = acc.reverse ++ l := by
  intro n
  induction n with
  | zero =>
    intro l acc r hlen hmem
    have h0 : l = [] := List.eq_nil_of_length_eq_zero (Nat.le_zero.mp hlen)
    subst h0
    simp only [rowSplitGo, List.mem_singleton] at hmem
    exact ⟨[], [], by simp [hmem]⟩
  | succ n ih =>
    intro l acc r hlen hmem
    cases l with
    | nil =>
      simp only [rowSplitGo, List.mem_singleton] at hmem
      exact ⟨[], [], by simp [hmem]⟩
    | cons c rest =>
      cases rest with
      | nil =>
        simp only [rowSplitGo, List.mem_singleton] at hmem
        exact ⟨[], [], by simp [hmem]⟩
      | cons d rest2 =>
        rw [rowSplitGo] at hmem
        split_ifs at hmem with hcd
        · rcases List.mem_cons.mp hmem with h1 | h2
          · exact ⟨[], c :: d :: rest2, by simp [h1]⟩
          · obtain ⟨a, b, hab⟩ := ih rest2 [] r (by simp at hlen; omega) h2
            simp only [List.reverse_nil, List.nil_append] at hab
            refine ⟨acc.reverse ++ [c, d] ++ a, b, ?_⟩
            simp [hab]
        · obtain ⟨a, b, hab⟩ := ih (d :: rest2) (c :: acc) r (by simp at hlen ⊢; omega) hmem
          refine ⟨a, b, ?_⟩
          rw [hab]
          simp

theorem rowSplit_frag (w r : List Nat) (h : r ∈ rowSplit w) : ∃ a b, a ++ r ++ b = w := by
  obtain ⟨a, b, hab⟩ := rowSplitGo_frag w.length w [] r (Nat.le_refl _) h
  exact ⟨a, b, by simpa using hab⟩

theorem flagicon_frag (w r : List Nat) (hw : flagiconIn w = false) (hr : r ∈ rowSplit w) :
    flagiconIn r = false := by
  cases hfr : flagiconIn r
  · rfl
  · exfalso
    obtain ⟨a, b, hab⟩ := rowSplit_frag w r hr
    rw [flagiconIn] at hfr hw
    have hall : hasSub flagiconPat (pyLower w) = true := by
      rw [← hab]
      have hmap : pyLower (a ++ r ++ b) = pyLower a ++ pyLower r ++ pyLower b := by
        simp [pyLower]
      rw [hmap]
      exact hasSub_of_middle _ _ _ _ hfr
    rw [hall] at hw
    cases hw

/-! ### Concrete documents used as witnesses -/

/-- A document whose single data row has a parsable name link but no
`n+p` population template. -/
def docC1 : List Nat := pyStr "|-\x7b\x7bflagicon|Foo\x7d\x7d [[Foo page|Foo]] no population template"

/-- A document with one well-formed data row (name and population). -/
def docC2 : List Nat :=
  pyStr "|-\x7b\x7bflagicon|China\x7d\x7d [[Demographics of China|China]] \x7b\x7bn+p|1409670000|x\x7d\x7d"

/-- A document with a single qualifying row (fewer than the requested cap). -/
def docC5 : List Nat := pyStr "|-\x7b\x7bflagicon|India\x7d\x7d [[India|India]]"

/-- A document whose first data row has the entity marker but no parsable
link, followed by a well-formed row. -/
def docC6 : List Nat :=
  pyStr "|-\x7b\x7bflagicon|A\x7d\x7d no link here|-\x7b\x7bflagicon|B\x7d\x7d [[B page|Bee]]"

/-- `docC6` with the malformed row removed. -/
def docC6b : List Nat := pyStr "|-\x7b\x7bflagicon|B\x7d\x7d [[B page|Bee]]"

/-- The malformed row of `docC6`. -/
def rowC6 : List Nat := pyStr "\x7b\x7bflagicon|A\x7d\x7d no link here"

/-- The well-formed row of `docC6`. -/
def rowC6b : List Nat := pyStr "\x7b\x7bflagicon|B\x7d\x7d [[B page|Bee]]"

/-- A document without any flagicon template. -/
def docC10 : List Nat := pyStr "nothing |- to see |- here"

/-! ### Claims -/

/-- C1: the claim states that `parse_top_countries` and
`parse_top_populations` always return index-aligned lists of equal length.
The code filters rows by different predicates after the shared flagicon test
(`link_pattern` match vs `population_pattern` match), so a row with a name
link but no population template yields lists of different lengths — despite
the source's own comment that the two loops are "guaranteeing the two lists
stay in sync".  This theorem evaluates both functions at such a document. -/
theorem c1_misaligned_lists :
    parse_top_countries docC1 TOP_N = [pyStr "foo"] ∧
    parse_top_populations docC1 TOP_N = [] ∧
    (parse_top_countries docC1 TOP_N).length ≠ (parse_top_populations docC1 TOP_N).length := by
  refine ⟨by decide, by decide, by decide⟩

/-- C2: if the normalised guess occurs in the extracted name list at
(0-based) first position `i`, then `check_guess` reports `correct = true`
with rank `i + 1`, and the `/check` handler attaches the population figure
at that rank from the population list extracted from the same document. -/
theorem c2_found_attaches_population (d g : List Nat) (n i : Nat) (p : List Nat)
    (hfind : listIndex (normalise_guess g) (parse_top_countries d n) = some i)
    (hpop : (parse_top_populations d n)[i]? = some p) :
    check_guess g (parse_top_countries d n) =
      some ⟨true, some (i + 1), normalise_guess g⟩ ∧
    appCheck g (parse_top_countries d n) (parse_top_populations d n) =
      some ⟨true, some (i + 1), normalise_guess g, some p⟩ := by
  have hcg := check_guess_found g _ i hfind
  refine ⟨hcg, ?_⟩
  rw [appCheck, hcg]
  simp [hpop]

/-- Witness for C2 at a concrete document and guess. -/
theorem c2_witness :
    listIndex (normalise_guess (pyStr " PRC ")) (parse_top_countries docC2 TOP_N) = some 0 ∧
    (parse_top_populations docC2 TOP_N)[0]? = some (pyStr "1,409,670,000") ∧
    appCheck (pyStr " PRC ") (parse_top_countries docC2 TOP_N) (parse_top_populations docC2 TOP_N) =
      some ⟨true, some 1, pyStr "china", some (pyStr "1,409,670,000")⟩ := by
  refine ⟨by decide, by decide, ?_⟩
  have h := c2_found_attaches_population docC2 (pyStr " PRC ") TOP_N 0
    (pyStr "1,409,670,000") (by decide) (by decide)
  exact h.2.trans (by decide)

/-- C3: `normalise_guess` applies at most one alias substitution and does
not chain: it is idempotent, and in particular maps `"usa"` and
`"united states"` both to `"united states"`. -/
theorem c3_alias_substitution_idempotent :
    (∀ g : List Nat, normalise_guess (normalise_guess g) = normalise_guess g) ∧
    normalise_guess (pyStr "usa") = pyStr "united states" ∧
    normalise_guess (pyStr "united states") = pyStr "united states" :=
  ⟨normalise_guess_idem, by decide, by decide⟩

/-- C4: guess matching is case- and whitespace-insensitive: `check_guess`
gives the same result on `g` and on `g` stripped of leading/trailing
whitespace and lowercased; in particular `"  USA "`, `"usa"` and `"Usa"`
all normalise to `"united states"`. -/
theorem c4_case_whitespace_insensitive :
    (∀ (g : List Nat) (tc : List (List Nat)),
      check_guess g tc = check_guess (pyLower (pyStrip g)) tc) ∧
    normalise_guess (pyStr "  USA ") = pyStr "united states" ∧
    normalise_guess (pyStr "usa") = pyStr "united states" ∧
    normalise_guess (pyStr "Usa") = pyStr "united states" :=
  ⟨check_guess_ext, by decide, by decide, by decide⟩

/-- C5: `parse_top_countries` returns at most `n` names — it is exactly the
`n`-prefix of the uncapped extraction — and when fewer than `n` qualifying
rows exist it returns the full shorter list normally. -/
theorem c5_cap_and_short_list (w : List Nat) (n : Nat) :
    (parse_top_countries w n).length ≤ n ∧
    parse_top_countries w n = (allCountries w).take n ∧
    ((allCountries w).length < n → parse_top_countries w n = allCountries w) := by
  refine ⟨?_, parse_top_countries_eq w n, ?_⟩
  · rw [parse_top_countries_eq, List.length_take]
    exact Nat.min_le_left _ _
  · intro h
    rw [parse_top_countries_eq]
    exact List.take_of_length_le (Nat.le_of_lt h)

/-- Witness for C5: a document with one qualifying row and cap 3. -/
theorem c5_witness :
    (allCountries docC5).length < 3 ∧ parse_top_countries docC5 3 = allCountries docC5 :=
  ⟨by decide, (c5_cap_and_short_list docC5 3).2.2 (by decide)⟩

/-- C6: a row fragment with the entity marker but no parsable name template
contributes no entity, and the extraction result equals that of a document
whose row split is the same with the malformed fragment removed — so the
surviving names keep the same list positions (ranks). -/
theorem c6_malformed_row_skipped (w w2 : List Nat) (n : Nat)
    (rows1 rows2 : List (List Nat)) (r : List Nat)
    (h1 : rowSplit w = rows1 ++ r :: rows2) (h2 : rowSplit w2 = rows1 ++ rows2)
    (hf : flagiconIn r = true) (hl : firstLink r = none) :
    parse_top_countries w n = parse_top_countries w2 n := by
  have hrn : rowName r = none := by simp [rowName, hf, hl]
  rw [parse_top_countries, parse_top_countries, countriesLoop_eq, countriesLoop_eq, h1, h2]
  simp [List.filterMap_append, List.filterMap_cons_none hrn]

/-- Witness for C6 at a concrete pair of documents. -/
theorem c6_witness :
    rowSplit docC6 = [[], rowC6, rowC6b] ∧
    rowSplit docC6b = [[], rowC6b] ∧
    flagiconIn rowC6 = true ∧
    firstLink rowC6 = none ∧
    parse_top_countries docC6 TOP_N = parse_top_countries docC6b TOP_N := by
  refine ⟨by decide, by decide, by decide, by decide, ?_⟩
  exact c6_malformed_row_skipped docC6 docC6b TOP_N [[]] [rowC6b] rowC6
    (by decide) (by decide) (by decide) (by decide)

/-- C7: when the normalised guess is not a member of the cached name list,
`check_guess` returns `correct = false` with no rank, and the `/check`
handler attaches no population figure. -/
theorem c7_unknown_guess (g : List Nat) (tc tp : List (List Nat))
    (h : listMem (normalise_guess g) tc = false) :
    check_guess g tc = some ⟨false, none, normalise_guess g⟩ ∧
    appCheck g tc tp = some ⟨false, none, normalise_guess g, none⟩ := by
  have hcg := check_guess_not_found g tc h
  refine ⟨hcg, ?_⟩
  rw [appCheck, hcg]
  simp

/-- Witness for C7 at a concrete unknown guess. -/
theorem c7_witness :
    listMem (normalise_guess (pyStr "atlantis")) [pyStr "china", pyStr "india"] = false ∧
    appCheck (pyStr "atlantis") [pyStr "china", pyStr "india"]
        [pyStr "1,409,670,000", pyStr "1,417,173,173"] =
      some ⟨false, none, pyStr "atlantis", none⟩ :=
  ⟨by decide,
    ((c7_unknown_guess (pyStr "atlantis") [pyStr "china", pyStr "india"]
        [pyStr "1,409,670,000", pyStr "1,417,173,173"] (by decide)).2).trans (by decide)⟩

/-- C8: guess matching never raises: for every guess string (including the
empty and all-whitespace strings) and every name list, `check_guess`
returns a result (`none`, the model of a raised exception, is impossible:
the `list.index` call is guarded by the membership test). -/
theorem c8_never_raises (g : List Nat) (tc : List (List Nat)) :
    ∃ r, check_guess g tc = some r := by
  cases hm : listMem (normalise_guess g) tc
  · exact ⟨_, check_guess_not_found g tc hm⟩
  · obtain ⟨i, hi⟩ := listIndex_of_listMem _ tc hm
    exact ⟨_, check_guess_found g tc i hi⟩

/-- C9: every `check_guess` result is well-formed: `correct = true` exactly
when the rank is a 1-based index into the name list whose entry equals the
normalised guess, with no earlier occurrence; `correct = false` exactly when
the rank is absent. -/
theorem c9_result_well_formed (g : List Nat) (tc : List (List Nat)) :
    ∃ res, check_guess g tc = some res ∧
      (res.correct = true ↔ ∃ r, res.rank = some r ∧ 1 ≤ r ∧ r ≤ tc.length ∧
        tc[r - 1]? = some res.normalised ∧ ∀ j, j + 1 < r → tc[j]? ≠ some res.normalised) ∧
      (res.correct = false ↔ res.rank = none) := by
  cases hm : listMem (normalise_guess g) tc
  · refine ⟨⟨false, none, normalise_guess g⟩, check_guess_not_found g tc hm, ?_, ?_⟩
    · constructor
      · intro h; cases h
      · rintro ⟨r, hr, _⟩; cases hr
    · simp
  · obtain ⟨i, hi⟩ := listIndex_of_listMem _ tc hm
    obtain ⟨h1, h2, h3⟩ := listIndex_spec _ tc i hi
    refine ⟨⟨true, some (i + 1), normalise_guess g⟩, check_guess_found g tc i hi, ?_, ?_⟩
    · constructor
      · intro _
        refine ⟨i + 1, rfl, by omega, by omega, by simpa using h2, ?_⟩
        intro j hj
        exact h3 j (by omega)
      · intro _; rfl
    · constructor
      · intro h; cases h
      · intro h; cases h

/-- C10: a document that contains no flagicon template (in particular the
empty document) yields the empty list from both parse functions, for every
cap. -/
theorem c10_no_marker_empty_lists (w : List Nat) (n : Nat) (h : flagiconIn w = false) :
    parse_top_countries w n = [] ∧ parse_top_populations w n = [] := by
  have hall : ∀ r ∈ rowSplit w, flagiconIn r = false := fun r hr => flagicon_frag w r h hr
  constructor
  · rw [parse_top_countries, countriesLoop_eq]
    have hnil : (rowSplit w).filterMap rowName = [] :=
      List.filterMap_eq_nil_iff.mpr (fun r hr => by simp [rowName, hall r hr])
    simp [hnil]
  · rw [parse_top_populations, populationsLoop_eq]
    have hnil : (rowSplit w).filterMap rowPop = [] :=
      List.filterMap_eq_nil_iff.mpr (fun r hr => by simp [rowPop, hall r hr])
    simp [hnil]

/-- Witness for C10 at a concrete marker-free document. -/
theorem c10_witness :
    flagiconIn docC10 = false ∧
    parse_top_countries docC10 TOP_N = [] ∧ parse_top_populations docC10 TOP_N = [] := by
  have h := c10_no_marker_empty_lists docC10 TOP_N (by decide)
  exact ⟨by decide, h.1, h.2⟩

